import Mathlib

/-!
Shallow embedding of `practical.py`, the single source file of the
URL-summarizer agent, together with theorems settling the frozen claims.
Strings of the Python program are modelled as `List Char`; external
services (YouTube transcript API, HTTP download, image decoding, OCR,
the Groq LLM endpoint, URL resolution) are modelled as explicit function
parameters returning `Except`/plain values, so that the orchestration
logic of the program itself is fully executable.
-/

namespace Practical

/-- Character class of the video-id pattern in `get_video_id`
(the Python regex character class of digits, letters, underscore and dash). -/
def isIdChar (c : Char) : Bool :=
  ('0' ≤ c && c ≤ '9') || ('A' ≤ c && c ≤ 'Z') || ('a' ≤ c && c ≤ 'z') || c == '_' || c == '-'

/-- Match exactly `n` id-characters at the front of `l`, returning them;
`none` when fewer than `n` id-characters start `l`. -/
def takeRun : Nat → List Char → Option (List Char)
  | 0, _ => some []
  | _ + 1, [] => none
  | n + 1, c :: cs => if isIdChar c then (takeRun n cs).map (fun s => c :: s) else none

/-- One anchored attempt of the regex of `get_video_id` at the current
position: the alternation tries the marker `v=` first, then the path
separator `/`, each followed by exactly 11 id-characters. -/
def matchAt : List Char → Option (List Char)
  | c :: d :: rest =>
    if c = 'v' ∧ d = '=' then takeRun 11 rest
    else if c = '/' then takeRun 11 (d :: rest)
    else none
  | [c] => if c = '/' then takeRun 11 [] else none
  | [] => none

/-- Embedding of `get_video_id` (practical.py, lines 46-49): `re.search`
scans positions left to right and returns the first match's capture group,
or `None` when the pattern occurs nowhere. -/
def get_video_id : List Char → Option (List Char)
  | [] => none
  | c :: cs =>
    match matchAt (c :: cs) with
    | some s => some s
    | none => get_video_id cs

/-- The property of being an 11-character identifier: 11 characters,
all in the id-character class. -/
def IdRun (s : List Char) : Prop := s.length = 11 ∧ ∀ c ∈ s, isIdChar c = true

/-- Declarative reading of the spec sentence for identifier extraction:
`s` is an 11-character id-run occurring in `url` immediately after the
marker `v=` or after a `/` path separator. -/
def SpecMatch (url s : List Char) : Prop :=
  IdRun s ∧ ∃ pre post : List Char,
    url = pre ++ 'v' :: '=' :: (s ++ post) ∨ url = pre ++ '/' :: (s ++ post)

/-- Boolean test that `p` begins `l` (models Python substring containment
at a fixed offset). -/
def startsWith : List Char → List Char → Bool
  | _, [] => true
  | [], _ :: _ => false
  | a :: as, b :: bs => a == b && startsWith as bs

/-- Boolean substring containment, modelling the Python `in` operator on
strings. -/
def containsSub : List Char → List Char → Bool
  | [], needle => startsWith [] needle
  | c :: rest, needle => startsWith (c :: rest) needle || containsSub rest needle

/-- Declarative substring containment: `needle` occurs contiguously in
`hay`. -/
def ContainsSpec (hay needle : List Char) : Prop :=
  ∃ pre post : List Char, hay = pre ++ needle ++ post

/-- Embedding of `route_input` (practical.py, lines 156-160): classify the
URL as "youtube" when it contains "youtube.com" or "youtu.be", else
"article". -/
def route_input (url : List Char) : List Char :=
  if containsSub url ("youtube.com".toList) || containsSub url ("youtu.be".toList) then
    "youtube".toList
  else
    "article".toList

/-- One chat message of the LLM completion request: a role string and a
content string. -/
structure ChatMessage where
  role : List Char
  content : List Char

/-- The fixed system instruction of practical.py (lines 35-41), verbatim. -/
def SYSTEM_PROMPT : List Char :=
  ("\nYou are an expert AI Notes Generator.\n\nSummarize the given content into important structured bullet points.\nCover all key concepts properly.\nLimit the summary to 250–300 words.\n").toList

/-- The fixed user-message instruction that precedes the content in
`summarize_with_groq` (practical.py, line 145). -/
def USER_INSTR : List Char := "Generate notes in bullet points:\n".toList

/-- The message list submitted by `summarize_with_groq` (practical.py,
lines 138-148): the content is first truncated to its first 7000
characters (`content[:7000]`), then embedded after the fixed instruction
in the single user message of a single request. -/
def groq_request (content : List Char) : List ChatMessage :=
  let truncated := content.take 7000
  [⟨"system".toList, SYSTEM_PROMPT⟩, ⟨"user".toList, USER_INSTR ++ truncated⟩]

/-- Embedding of `summarize_with_groq` (practical.py, lines 138-150): the
remote completion endpoint is a parameter `llm`, applied exactly once to
the single request built by `groq_request`; the summarizer returns the
completion text. -/
def summarize_with_groq (llm : List ChatMessage → List Char) (content : List Char) :
    List Char :=
  llm (groq_request content)

/-- Embedding of the loop body of `extract_image_urls` (practical.py,
lines 97-101): each `img` element is an optional source attribute;
elements with a missing (`none`) or empty source are skipped without
producing anything, any other source is resolved against the page URL by
the `urljoin` parameter `uj`. -/
def resolveSources (uj : List Char → List Char → List Char) (url : List Char) :
    List (Option (List Char)) → List (List Char)
  | [] => []
  | none :: rest => resolveSources uj url rest
  | some src :: rest =>
    if src = [] then resolveSources uj url rest
    else uj url src :: resolveSources uj url rest

/-- Embedding of `extract_image_urls` (practical.py, lines 93-103): build
the resolved source list in document order, then keep only the first 3
(`img_urls[:3]`). The HTML fetch and parse are external; the function
receives the page's `img` elements (their optional `src` attributes) in
document order. -/
def extract_image_urls (uj : List Char → List Char → List Char) (url : List Char)
    (imgs : List (Option (List Char))) : List (List Char) :=
  (resolveSources uj url imgs).take 3

/-- Python whitespace test used by `str.strip` (restricted to the ASCII
whitespace characters, which is what OCR output contains). -/
def pyIsSpace (c : Char) : Bool :=
  c == ' ' || c == '\t' || c == '\n' || c == '\r' || c == '\u000B' || c == '\u000C'

/-- Python `str.strip`: drop leading and trailing whitespace. -/
def pyStrip (s : List Char) : List Char :=
  ((s.dropWhile pyIsSpace).reverse.dropWhile pyIsSpace).reverse

/-- The external services used by `ocr_from_image_url`: HTTP download of
the image bytes, decoding the bytes into an image, and text recognition.
Each can fail with an exception, modelled as `Except.error`. -/
structure OcrEnv (E I : Type) where
  download : List Char → Except E (List Char)
  decode : List Char → Except E I
  recognize : I → Except E (List Char)

/-- Embedding of `ocr_from_image_url` (practical.py, lines 109-116): the
whole body is wrapped in a bare `try`/`except` returning `""`, so every
failing step yields the empty string; on success the recognized text is
returned stripped. -/
def ocr_from_image_url {E I : Type} (env : OcrEnv E I) (imgUrl : List Char) : List Char :=
  match env.download imgUrl with
  | Except.error _ => []
  | Except.ok bytes =>
    match env.decode bytes with
    | Except.error _ => []
    | Except.ok img =>
      match env.recognize img with
      | Except.error _ => []
      | Except.ok text => pyStrip text

/-- The literal separator inserted by `extract_article_with_images`
(practical.py, line 131). -/
def IMAGES_HEADER : List Char := "\n\nImportant Text from Images:\n".toList

/-- Embedding of `extract_article_with_images` (practical.py, lines
122-132): article text (from the external article parser), then the fixed
header, then the OCR text accumulated by the loop, which appends a
newline followed by the per-image OCR result for each harvested image URL
in order, starting from the empty string. -/
def extract_article_with_images (text : List Char) (imageUrls : List (List Char))
    (ocr : List Char → List Char) : List Char :=
  text ++ IMAGES_HEADER ++ imageUrls.foldl (fun acc u => acc ++ '\n' :: ocr u) []

/-- The external YouTube transcript service used by
`extract_youtube_transcript`: listing transcripts of a video id, looking
up a manually created or a generated transcript for a language list, and
fetching a transcript as its ordered snippet texts. Every operation can
raise, modelled as `Except.error`. -/
structure YoutubeTranscriptApi (E TL T : Type) where
  listTranscripts : List Char → Except E TL
  findManuallyCreated : TL → List (List Char) → Except E T
  findGenerated : TL → List (List Char) → Except E T
  fetchTranscript : T → Except E (List (List Char))

/-- The language preference list `["en","hi"]` of practical.py, lines
66 and 68. -/
def preferred_languages : List (List Char) := ["en".toList, "hi".toList]

/-- Python `" ".join(...)` over the snippet texts (practical.py, line 71). -/
def joinSpace (snippets : List (List Char)) : List Char :=
  List.intercalate [' '] snippets

/-- Embedding of `extract_youtube_transcript` (practical.py, lines 55-77).
The outer `try` covers everything: a failing `listTranscripts` call, a
failing fetch, or both lookups failing, all reach the outer handler and
return `none`. Only a failure of the `findManuallyCreated` call itself is
caught by the inner `except`, which then tries `findGenerated`. -/
def extract_youtube_transcript {E TL T : Type} (api : YoutubeTranscriptApi E TL T)
    (url : List Char) : Option (List Char) :=
  match get_video_id url with
  | none => none
  | some vid =>
    match api.listTranscripts vid with
    | Except.error _ => none
    | Except.ok tl =>
      match
        (match api.findManuallyCreated tl preferred_languages with
         | Except.ok t => Except.ok t
         | Except.error _ => api.findGenerated tl preferred_languages) with
      | Except.error _ => none
      | Except.ok t =>
        match api.fetchTranscript t with
        | Except.error _ => none
        | Except.ok fetched => some (joinSpace fetched)

/-- Embedding of `agent_pipeline` (practical.py, lines 166-179): route the
URL; on the video path the content is the (possibly absent) transcript,
on the article path it is the assembled article-plus-OCR document built
from the external article text, harvested image URLs, and per-URL OCR
results; a falsy content (`None` or the empty string) returns `none`
without calling the summarizer, otherwise the summarizer's result is
returned. -/
def agent_pipeline (transcriptOf : List Char → Option (List Char))
    (articleTextOf : List Char → List Char)
    (imageUrlsOf : List Char → List (List Char))
    (ocr : List Char → List Char)
    (llm : List ChatMessage → List Char)
    (url : List Char) : Option (List Char) :=
  let content : Option (List Char) :=
    if route_input url = "youtube".toList then transcriptOf url
    else some (extract_article_with_images (articleTextOf url) (imageUrlsOf url) ocr)
  match content with
  | none => none
  | some c => if c = [] then none else some (summarize_with_groq llm c)

/-- Python `str.split` on the newline character (practical.py, line 190):
the empty string yields one empty piece, and every newline separates two
pieces, so the result always has one more piece than there are newlines. -/
def splitOnNl : List Char → List (List Char)
  | [] => [[]]
  | c :: cs =>
    if c = '\n' then [] :: splitOnNl cs
    else
      match splitOnNl cs with
      | [] => [[c]]
      | l :: ls => (c :: l) :: ls

/-- A character representable in the single-byte latin-1 encoding. -/
def isLatin1 (c : Char) : Bool := c.toNat < 256

/-- Embedding of `create_pdf` (practical.py, lines 184-194): the summary
is split on newlines and each piece is rendered as one document cell, in
order; the final `.encode('latin-1')` of the rendered document fails
exactly when the summary contains a character outside latin-1, in which
case the export raises (`none`) instead of producing a document. -/
def create_pdf (summary : List Char) : Option (List (List Char)) :=
  let cells := splitOnNl summary
  if summary.all isLatin1 then some cells else none

/-- Concrete transcript API for which listing always fails while a
generated transcript would be available and fetchable. -/
def apiListingFails : YoutubeTranscriptApi Unit Unit Unit where
  listTranscripts := fun _ => Except.error ()
  findManuallyCreated := fun _ _ => Except.error ()
  findGenerated := fun _ _ => Except.ok ()
  fetchTranscript := fun _ => Except.ok ["hello".toList]

/-- Concrete transcript API with a manually created transcript. -/
def apiManualOk : YoutubeTranscriptApi Unit Unit Unit where
  listTranscripts := fun _ => Except.ok ()
  findManuallyCreated := fun _ _ => Except.ok ()
  findGenerated := fun _ _ => Except.error ()
  fetchTranscript := fun _ => Except.ok ["hi".toList, "yo".toList]

/-- Concrete OCR environment in which the download always fails. -/
def ocrFailingEnv : OcrEnv Unit Unit where
  download := fun _ => Except.error ()
  decode := fun _ => Except.error ()
  recognize := fun _ => Except.error ()

/-- Concrete OCR environment in which every step succeeds and recognition
returns text with surrounding whitespace. -/
def ocrOkEnv : OcrEnv Unit Unit where
  download := fun _ => Except.ok []
  decode := fun _ => Except.ok ()
  recognize := fun _ => Except.ok (" hi there \n".toList)

theorem takeRun_eq_some {n : Nat} {l s : List Char} (h : takeRun n l = some s) :
    s.length = n ∧ (∀ c ∈ s, isIdChar c = true) ∧ ∃ post, l = s ++ post := by
  induction n generalizing l s with
  | zero =>
    simp only [takeRun, Option.some.injEq] at h
    subst h
    exact ⟨rfl, by simp, l, rfl⟩
  | succ n ih =>
    match l with
    | [] => simp [takeRun] at h
    | c :: cs =>
      simp only [takeRun] at h
      by_cases hc : isIdChar c = true
      · rw [if_pos hc] at h
        match hr : takeRun n cs with
        | none => rw [hr] at h; simp at h
        | some t =>
          rw [hr] at h
          simp only [Option.map_some', Option.some.injEq] at h
          obtain ⟨ht1, ht2, post, ht3⟩ := ih hr
          subst h
          refine ⟨by simp [ht1], ?_, post, by simp [ht3]⟩
          intro d hd
          rcases List.mem_cons.mp hd with h1 | h1
          · exact h1 ▸ hc
          · exact ht2 d h1
      · rw [if_neg hc] at h
        exact absurd h (by simp)

theorem takeRun_append : ∀ (s post : List Char), (∀ c ∈ s, isIdChar c = true) →
    takeRun s.length (s ++ post) = some s := by
  intro s
  induction s with
  | nil => intro post h; rfl
  | cons c cs ih =>
    intro post hall
    have hc : isIdChar c = true := hall c (List.mem_cons_self c cs)
    have h2 := ih post (fun d hd => hall d (List.mem_cons_of_mem c hd))
    show takeRun (cs.length + 1) (c :: (cs ++ post)) = some (c :: cs)
    rw [takeRun, if_pos hc, h2]
    rfl

theorem matchAt_eq_some {l s : List Char} (h : matchAt l = some s) :
    IdRun s ∧ ∃ post, l = 'v' :: '=' :: (s ++ post) ∨ l = '/' :: (s ++ post) := by
  match l with
  | [] => exact absurd h (by simp [matchAt])
  | [c] =>
    rw [matchAt] at h
    by_cases hc : c = '/'
    · rw [if_pos hc] at h
      have hn : takeRun 11 ([] : List Char) = none := rfl
      rw [hn] at h
      exact absurd h (by simp)
    · rw [if_neg hc] at h
      exact absurd h (by simp)
  | c :: d :: rest =>
    rw [matchAt] at h
    by_cases hvd : c = 'v' ∧ d = '='
    · rw [if_pos hvd] at h
      obtain ⟨h1, h2, post, h3⟩ := takeRun_eq_some h
      exact ⟨⟨h1, h2⟩, post, Or.inl (by rw [hvd.1, hvd.2, h3])⟩
    · rw [if_neg hvd] at h
      by_cases hsl : c = '/'
      · rw [if_pos hsl] at h
        obtain ⟨h1, h2, post, h3⟩ := takeRun_eq_some h
        exact ⟨⟨h1, h2⟩, post, Or.inr (by rw [hsl, h3])⟩
      · rw [if_neg hsl] at h
        exact absurd h (by simp)

theorem matchAt_marker {s : List Char} (post : List Char) (hrun : IdRun s) :
    matchAt ('v' :: '=' :: (s ++ post)) = some s ∧
    matchAt ('/' :: (s ++ post)) = some s := by
  obtain ⟨hlen, hall⟩ := hrun
  have htake : takeRun 11 (s ++ post) = some s := by
    rw [← hlen]
    exact takeRun_append s post hall
  match s, hlen with
  | a :: s1, _ =>
    constructor
    · show matchAt ('v' :: '=' :: ((a :: s1) ++ post)) = some (a :: s1)
      rw [List.cons_append, matchAt, if_pos (And.intro rfl rfl), ← List.cons_append]
      exact htake
    · show matchAt ('/' :: ((a :: s1) ++ post)) = some (a :: s1)
      have hne : ¬ ('/' = 'v' ∧ a = '=') := fun hcon => by
        have h1 := hcon.1
        simp at h1
      rw [List.cons_append, matchAt, if_neg hne, if_pos rfl, ← List.cons_append]
      exact htake

theorem get_video_id_spec (url : List Char) :
    (∀ s, get_video_id url = some s → SpecMatch url s)
    ∧ (get_video_id url = none → ∀ s, ¬ SpecMatch url s) := by
  induction url with
  | nil =>
    constructor
    · intro s h; simp [get_video_id] at h
    · rintro - s ⟨⟨hlen, -⟩, pre, post, h | h⟩ <;>
        · replace h := congrArg List.length h
          simp [List.length_append] at h
          omega
  | cons c cs ih =>
    constructor
    · intro s h
      simp only [get_video_id] at h
      match hm : matchAt (c :: cs) with
      | some t =>
        rw [hm] at h
        obtain rfl : t = s := by simpa using h
        obtain ⟨hrun, post, hor⟩ := matchAt_eq_some hm
        rcases hor with heq | heq
        · exact ⟨hrun, [], post, Or.inl heq⟩
        · exact ⟨hrun, [], post, Or.inr heq⟩
      | none =>
        rw [hm] at h
        obtain ⟨hrun, pre, post, hor⟩ := ih.1 s h
        rcases hor with heq | heq
        · exact ⟨hrun, c :: pre, post, Or.inl (by rw [heq]; rfl)⟩
        · exact ⟨hrun, c :: pre, post, Or.inr (by rw [heq]; rfl)⟩
    · intro h s hs
      simp only [get_video_id] at h
      match hm : matchAt (c :: cs) with
      | some t => rw [hm] at h; simp at h
      | none =>
        rw [hm] at h
        obtain ⟨hrun, pre, post, hor⟩ := hs
        match pre with
        | [] =>
          rcases hor with heq | heq
          · simp only [List.nil_append] at heq
            rw [heq] at hm
            rw [(matchAt_marker post hrun).1] at hm
            exact absurd hm (by simp)
          · simp only [List.nil_append] at heq
            rw [heq] at hm
            rw [(matchAt_marker post hrun).2] at hm
            exact absurd hm (by simp)
        | p :: pre1 =>
          rcases hor with heq | heq <;>
          · simp only [List.cons_append, List.cons.injEq] at heq
            exact ih.2 h s ⟨hrun, pre1, post, by
              first
              | exact Or.inl heq.2
              | exact Or.inr heq.2⟩

/-- Claim C4: for every URL string containing an 11-character run of
id-characters immediately preceded by the marker "v=" or by a "/" path
separator, `get_video_id` returns exactly such an 11-character identifier
occurring after a marker in the URL; for every URL string containing no
such pattern, it returns `none`. -/
theorem c4_video_id (url : List Char) :
    (∀ s, get_video_id url = some s → SpecMatch url s)
    ∧ ((∃ s, SpecMatch url s) → ∃ s, get_video_id url = some s ∧ SpecMatch url s)
    ∧ ((∀ s, ¬ SpecMatch url s) → get_video_id url = none) := by
  obtain ⟨h1, h2⟩ := get_video_id_spec url
  refine ⟨h1, ?_, ?_⟩
  · rintro ⟨s, hs⟩
    match hg : get_video_id url with
    | some t => exact ⟨t, rfl, h1 t hg⟩
    | none => exact absurd hs (h2 hg s)
  · intro hall
    match hg : get_video_id url with
    | some t => exact absurd (h1 t hg) (hall t)
    | none => rfl

/-- Witness for C4: on a concrete YouTube short URL the extractor returns
the 11-character identifier after the path separator. -/
theorem c4_video_id_witness :
    get_video_id ("youtu.be/dQw4w9WgXcQ".toList) = some ("dQw4w9WgXcQ".toList)
    ∧ SpecMatch ("youtu.be/dQw4w9WgXcQ".toList) ("dQw4w9WgXcQ".toList) :=
  ⟨by decide, (c4_video_id _).1 _ (by decide)⟩

theorem startsWith_iff (l p : List Char) :
    startsWith l p = true ↔ ∃ post, l = p ++ post := by
  induction p generalizing l with
  | nil => simp [startsWith]
  | cons b bs ih =>
    match l with
    | [] =>
      simp only [startsWith, List.cons_append]
      constructor
      · intro h; exact absurd h (by simp)
      · rintro ⟨post, h⟩; exact absurd h (by simp)
    | a :: as =>
      simp only [startsWith, Bool.and_eq_true, beq_iff_eq, ih as, List.cons_append]
      constructor
      · rintro ⟨rfl, post, rfl⟩; exact ⟨post, rfl⟩
      · rintro ⟨post, h⟩
        rw [List.cons.injEq] at h
        exact ⟨h.1, post, h.2⟩

theorem containsSub_iff (hay needle : List Char) :
    containsSub hay needle = true ↔ ContainsSpec hay needle := by
  induction hay with
  | nil =>
    rw [containsSub, startsWith_iff]
    constructor
    · rintro ⟨post, h⟩; exact ⟨[], post, h⟩
    · rintro ⟨pre, post, h⟩
      rw [List.append_assoc] at h
      rcases List.append_eq_nil.mp h.symm with ⟨rfl, h2⟩
      exact ⟨post, by simpa using h⟩
  | cons c rest ih =>
    rw [containsSub, Bool.or_eq_true, startsWith_iff, ih]
    constructor
    · rintro (⟨post, h⟩ | ⟨pre, post, h⟩)
      · exact ⟨[], post, by simpa using h⟩
      · exact ⟨c :: pre, post, by simp [h]⟩
    · rintro ⟨pre, post, h⟩
      match pre with
      | [] => exact Or.inl ⟨post, by simpa using h⟩
      | p :: pre1 =>
        right
        rw [List.cons_append, List.cons_append, List.cons.injEq] at h
        exact ⟨pre1, post, h.2⟩

/-- Claim C5: the Router `route_input` is a pure, deterministic function
of the input string; every URL containing the literal substring
"youtube.com" or "youtu.be" is classified "youtube" (the video path),
and every other URL is classified "article". -/
theorem c5_route (url : List Char) :
    (route_input url = "youtube".toList ↔
      ContainsSpec url ("youtube.com".toList) ∨ ContainsSpec url ("youtu.be".toList))
    ∧ (route_input url = "article".toList ↔
      ¬ (ContainsSpec url ("youtube.com".toList) ∨ ContainsSpec url ("youtu.be".toList))) := by
  rw [route_input]
  by_cases h : (containsSub url ("youtube.com".toList)
      || containsSub url ("youtu.be".toList)) = true
  · rw [if_pos h]
    rw [Bool.or_eq_true, containsSub_iff, containsSub_iff] at h
    constructor
    · simp only [true_iff]; exact h
    · constructor
      · intro hc; exact absurd hc (by decide)
      · intro hc; exact absurd h hc
  · rw [if_neg h]
    rw [Bool.or_eq_true, containsSub_iff, containsSub_iff] at h
    constructor
    · constructor
      · intro hc; exact absurd hc (by decide)
      · intro hc; exact absurd hc h
    · simp only [true_iff]; exact h

/-- Witness for C5: a URL containing "youtu.be" routes to the video path,
and a URL containing neither marker routes to the article path. -/
theorem c5_route_witness :
    route_input ("https://youtu.be/abc".toList) = "youtube".toList
    ∧ route_input ("http://example.org/a".toList) = "article".toList :=
  ⟨(c5_route _).1.mpr (Or.inr ⟨"https://".toList, "/abc".toList, by decide⟩),
   (c5_route _).2.mpr (fun hc => by
     rcases hc with h | h <;>
     · rw [← containsSub_iff] at h
       exact absurd h (by decide))⟩

/-- Claim C1: for every string passed to the Summarizer, the submitted
request is a single completion request of exactly two messages, whose
user message embeds the first 7000 characters of the string after the
fixed instruction; the embedded text is the string unmodified when it is
at most 7000 characters long, and exactly its first 7000 characters
(length 7000, the excess dropped) when it is longer. -/
theorem c1_truncation (content : List Char) :
    groq_request content =
      [⟨"system".toList, SYSTEM_PROMPT⟩, ⟨"user".toList, USER_INSTR ++ content.take 7000⟩]
    ∧ (∀ llm, summarize_with_groq llm content = llm (groq_request content))
    ∧ (content.length ≤ 7000 → content.take 7000 = content)
    ∧ (7000 < content.length → (content.take 7000).length = 7000) := by
  refine ⟨rfl, fun llm => rfl, ?_, ?_⟩
  · intro h
    exact List.take_of_length_le h
  · intro h
    rw [List.length_take]
    exact Nat.min_eq_left (Nat.le_of_lt h)

/-- Witness for C1: a 7001-character content is cut to 7000 characters,
and a short content is embedded unmodified. -/
theorem c1_truncation_witness :
    ((List.replicate 7001 'a').take 7000).length = 7000
    ∧ ("ab".toList).take 7000 = "ab".toList :=
  ⟨(c1_truncation (List.replicate 7001 'a')).2.2.2
      (by rw [List.length_replicate]; exact Nat.lt_succ_self 7000),
   (c1_truncation ("ab".toList)).2.2.1 (by decide)⟩

theorem resolveSources_eq_filterMap (uj : List Char → List Char → List Char)
    (url : List Char) (imgs : List (Option (List Char))) :
    resolveSources uj url imgs
      = imgs.filterMap (fun o =>
          match o with
          | none => none
          | some s => if s = [] then none else some (uj url s)) := by
  induction imgs with
  | nil => rfl
  | cons o rest ih =>
    match o with
    | none => simpa [resolveSources, List.filterMap_cons] using ih
    | some src =>
      by_cases hs : src = []
      · simpa [resolveSources, List.filterMap_cons, hs] using ih
      · simpa [resolveSources, List.filterMap_cons, hs] using ih

/-- Claim C6: the Image Harvester returns the first three document-order
resolved sources — every element with a missing or empty source is
skipped without consuming a slot, every kept source is resolved against
the page URL — hence at most 3 URLs, and exactly 3 when at least 3
resolvable sources exist. -/
theorem c6_harvest (uj : List Char → List Char → List Char) (url : List Char)
    (imgs : List (Option (List Char))) :
    extract_image_urls uj url imgs
      = (imgs.filterMap (fun o =>
          match o with
          | none => none
          | some s => if s = [] then none else some (uj url s))).take 3
    ∧ (extract_image_urls uj url imgs).length ≤ 3
    ∧ (3 ≤ (imgs.filterMap (fun o =>
          match o with
          | none => none
          | some s => if s = [] then none else some (uj url s))).length →
        (extract_image_urls uj url imgs).length = 3) := by
  refine ⟨by rw [extract_image_urls, resolveSources_eq_filterMap], ?_, ?_⟩
  · rw [extract_image_urls, List.length_take]
    exact Nat.min_le_left 3 _
  · intro h
    rw [extract_image_urls, resolveSources_eq_filterMap, List.length_take]
    exact Nat.min_eq_left h

/-- Witness for C6: a page with four resolvable sources (and a missing
and an empty one interleaved) yields exactly 3 harvested URLs. -/
theorem c6_harvest_witness :
    (extract_image_urls (fun u s => u ++ s) ("b/".toList)
      [some ("x".toList), none, some [], some ("y".toList),
       some ("z".toList), some ("w".toList)]).length = 3 :=
  (c6_harvest _ _ _).2.2 (by decide)

theorem foldl_ocr_append (f : List Char → List Char) (l : List (List Char)) :
    ∀ a : List Char,
      l.foldl (fun acc u => acc ++ '\n' :: f u) a
        = a ++ (l.map (fun u => '\n' :: f u)).flatten := by
  induction l with
  | nil => intro a; simp
  | cons u rest ih =>
    intro a
    rw [List.foldl_cons, ih, List.map_cons, List.flatten_cons, List.append_assoc]

/-- Claim C8: for every successful article extraction, the Document
Assembler produces exactly the article text, then the literal separator,
then the per-image OCR texts in harvested order each prefixed by one
newline; with no harvested images the result is the article text plus
the fixed header plus nothing. -/
theorem c8_assembler (text : List Char) (imageUrls : List (List Char))
    (ocr : List Char → List Char) :
    extract_article_with_images text imageUrls ocr
      = text ++ IMAGES_HEADER ++ (imageUrls.map (fun u => '\n' :: ocr u)).flatten
    ∧ extract_article_with_images text [] ocr = text ++ IMAGES_HEADER := by
  constructor
  · rw [extract_article_with_images, foldl_ocr_append]
    simp
  · rw [extract_article_with_images]
    simp

theorem extract_article_with_images_ne_nil (text : List Char)
    (imageUrls : List (List Char)) (ocr : List Char → List Char) :
    extract_article_with_images text imageUrls ocr ≠ [] := by
  intro h
  have h2 := congrArg List.length h
  rw [extract_article_with_images] at h2
  simp only [List.length_append, List.length_nil] at h2
  have hH : 0 < IMAGES_HEADER.length := by decide
  omega

/-- Counterexample to Claim C2: an article URL whose extracted text is
empty and whose page has no images still reaches the Summarizer, because
the assembled content contains the fixed header and is therefore not
falsy; the pipeline returns the summary instead of the absent result the
claim requires. -/
theorem c2_counterexample :
    route_input ("http://example.com/a".toList) = "article".toList
    ∧ agent_pipeline (fun _ => none) (fun _ => []) (fun _ => []) (fun _ => [])
        (fun _ => "S".toList) ("http://example.com/a".toList) = some ("S".toList)
    ∧ some ("S".toList) ≠ (none : Option (List Char)) :=
  ⟨by decide, by decide, by simp⟩

/-- Claim C2 as amended: on the video path, a fetch yielding no usable
text (absent or empty transcript) returns the absent result without
invoking the Summarizer; but on the article path the assembled content
always contains the non-empty fixed header, so it is never empty and the
Summarizer is always invoked — the empty-content guard can only ever
trigger on the video path. -/
theorem c2_empty_content (transcriptOf : List Char → Option (List Char))
    (articleTextOf : List Char → List Char)
    (imageUrlsOf : List Char → List (List Char))
    (ocr : List Char → List Char)
    (llm : List ChatMessage → List Char)
    (url : List Char) :
    (route_input url = "youtube".toList →
      (transcriptOf url = none ∨ transcriptOf url = some []) →
      agent_pipeline transcriptOf articleTextOf imageUrlsOf ocr llm url = none)
    ∧ (route_input url ≠ "youtube".toList →
      extract_article_with_images (articleTextOf url) (imageUrlsOf url) ocr ≠ []
      ∧ agent_pipeline transcriptOf articleTextOf imageUrlsOf ocr llm url
          = some (summarize_with_groq llm
              (extract_article_with_images (articleTextOf url) (imageUrlsOf url) ocr))) := by
  constructor
  · intro hroute hempty
    rw [agent_pipeline]
    rcases hempty with h | h <;> simp [hroute, h]
  · intro hroute
    have hne := extract_article_with_images_ne_nil (articleTextOf url) (imageUrlsOf url) ocr
    refine ⟨hne, ?_⟩
    show (match (if route_input url = "youtube".toList then transcriptOf url
        else some (extract_article_with_images (articleTextOf url) (imageUrlsOf url) ocr)) with
      | none => none
      | some c => if c = [] then none else some (summarize_with_groq llm c))
      = some (summarize_with_groq llm
          (extract_article_with_images (articleTextOf url) (imageUrlsOf url) ocr))
    rw [if_neg hroute]
    exact if_neg hne

/-- Witness for C2 (amended): an absent transcript on the video path
yields the absent pipeline result. -/
theorem c2_empty_content_witness :
    agent_pipeline (fun _ => none) (fun _ => []) (fun _ => []) (fun _ => [])
      (fun _ => "S".toList) ("youtu.be/x".toList) = none :=
  (c2_empty_content _ _ _ _ _ _).1 (by decide) (Or.inl rfl)

/-- Counterexample to Claim C3: when listing the available transcripts
fails, the generated-transcript fallback is never attempted — even though
a generated transcript is available and fetchable (it would yield the
text "hello"), the function returns the absent result directly from the
outer handler. -/
theorem c3_counterexample :
    apiListingFails.findGenerated () preferred_languages = Except.ok ()
    ∧ apiListingFails.fetchTranscript () = Except.ok ["hello".toList]
    ∧ extract_youtube_transcript apiListingFails ("youtu.be/abcdefghijk".toList) = none
    ∧ some (joinSpace ["hello".toList]) ≠ (none : Option (List Char)) :=
  ⟨rfl, rfl, by decide, by simp⟩

/-- Claim C3 as amended: `extract_youtube_transcript` never raises; it
first attempts a manually created transcript for the languages
["en","hi"], and only a failure of that lookup itself triggers the
auto-generated fallback with the same languages — a failure of the
listing call is caught by the outer handler and returns the absent
result without attempting the fallback, as does any other exception at
any step. -/
theorem c3_transcript {E TL T : Type} (api : YoutubeTranscriptApi E TL T)
    (url : List Char) :
    (get_video_id url = none → extract_youtube_transcript api url = none)
    ∧ (∀ vid e, get_video_id url = some vid →
        api.listTranscripts vid = Except.error e →
        extract_youtube_transcript api url = none)
    ∧ (∀ vid tl t fetched, get_video_id url = some vid →
        api.listTranscripts vid = Except.ok tl →
        api.findManuallyCreated tl preferred_languages = Except.ok t →
        api.fetchTranscript t = Except.ok fetched →
        extract_youtube_transcript api url = some (joinSpace fetched))
    ∧ (∀ vid tl e t fetched, get_video_id url = some vid →
        api.listTranscripts vid = Except.ok tl →
        api.findManuallyCreated tl preferred_languages = Except.error e →
        api.findGenerated tl preferred_languages = Except.ok t →
        api.fetchTranscript t = Except.ok fetched →
        extract_youtube_transcript api url = some (joinSpace fetched))
    ∧ (∀ vid tl e e2, get_video_id url = some vid →
        api.listTranscripts vid = Except.ok tl →
        api.findManuallyCreated tl preferred_languages = Except.error e →
        api.findGenerated tl preferred_languages = Except.error e2 →
        extract_youtube_transcript api url = none)
    ∧ (∀ vid tl t e, get_video_id url = some vid →
        api.listTranscripts vid = Except.ok tl →
        api.findManuallyCreated tl preferred_languages = Except.ok t →
        api.fetchTranscript t = Except.error e →
        extract_youtube_transcript api url = none)
    ∧ (∀ vid tl e t e2, get_video_id url = some vid →
        api.listTranscripts vid = Except.ok tl →
        api.findManuallyCreated tl preferred_languages = Except.error e →
        api.findGenerated tl preferred_languages = Except.ok t →
        api.fetchTranscript t = Except.error e2 →
        extract_youtube_transcript api url = none) := by
  refine ⟨?_, ?_, ?_, ?_, ?_, ?_, ?_⟩
  · intro h
    simp only [extract_youtube_transcript, h]
  · intro vid e h1 h2
    simp only [extract_youtube_transcript, h1, h2]
  · intro vid tl t fetched h1 h2 h3 h4
    simp only [extract_youtube_transcript, h1, h2, h3, h4]
  · intro vid tl e t fetched h1 h2 h3 h4 h5
    simp only [extract_youtube_transcript, h1, h2, h3, h4, h5]
  · intro vid tl e e2 h1 h2 h3 h4
    simp only [extract_youtube_transcript, h1, h2, h3, h4]
  · intro vid tl t e h1 h2 h3 h4
    simp only [extract_youtube_transcript, h1, h2, h3, h4]
  · intro vid tl e t e2 h1 h2 h3 h4 h5
    simp only [extract_youtube_transcript, h1, h2, h3, h4, h5]

/-- Witness for C3 (amended): with a manually created transcript present
the function returns the space-joined snippet texts. -/
theorem c3_transcript_witness :
    extract_youtube_transcript apiManualOk ("youtu.be/abcdefghijk".toList)
      = some (joinSpace ["hi".toList, "yo".toList]) :=
  (c3_transcript apiManualOk _).2.2.1 ("abcdefghijk".toList) () ()
    ["hi".toList, "yo".toList] (by decide) rfl rfl rfl

/-- Claim C7: the OCR Extractor never raises: on success it returns the
recognized text with surrounding whitespace trimmed, and on any failure
(download error, undecodable image, recognition error) it returns the
empty string — a recognition result with no text is likewise returned as
the empty string, indistinguishable from a failure. -/
theorem c7_ocr {E I : Type} (env : OcrEnv E I) (imgUrl : List Char) :
    (∀ b i t, env.download imgUrl = Except.ok b → env.decode b = Except.ok i →
        env.recognize i = Except.ok t → ocr_from_image_url env imgUrl = pyStrip t)
    ∧ (∀ e, env.download imgUrl = Except.error e → ocr_from_image_url env imgUrl = [])
    ∧ (∀ b e, env.download imgUrl = Except.ok b → env.decode b = Except.error e →
        ocr_from_image_url env imgUrl = [])
    ∧ (∀ b i e, env.download imgUrl = Except.ok b → env.decode b = Except.ok i →
        env.recognize i = Except.error e → ocr_from_image_url env imgUrl = [])
    ∧ (∀ b i, env.download imgUrl = Except.ok b → env.decode b = Except.ok i →
        env.recognize i = Except.ok [] → ocr_from_image_url env imgUrl = []) := by
  refine ⟨?_, ?_, ?_, ?_, ?_⟩
  · intro b i t h1 h2 h3
    simp only [ocr_from_image_url, h1, h2, h3]
  · intro e h1
    simp only [ocr_from_image_url, h1]
  · intro b e h1 h2
    simp only [ocr_from_image_url, h1, h2]
  · intro b i e h1 h2 h3
    simp only [ocr_from_image_url, h1, h2, h3]
  · intro b i h1 h2 h3
    simp only [ocr_from_image_url, h1, h2, h3]
    rfl

/-- Witness for C7: a failing download yields the empty string, and a
successful recognition yields the trimmed text. -/
theorem c7_ocr_witness :
    ocr_from_image_url ocrFailingEnv ("http://x/i.png".toList) = []
    ∧ ocr_from_image_url ocrOkEnv ("http://x/i.png".toList)
        = pyStrip (" hi there \n".toList) :=
  ⟨(c7_ocr ocrFailingEnv _).2.1 () rfl,
   (c7_ocr ocrOkEnv _).1 [] () (" hi there \n".toList) rfl rfl rfl⟩

theorem splitOnNl_ne_nil (s : List Char) : splitOnNl s ≠ [] := by
  match s with
  | [] => simp [splitOnNl]
  | c :: cs =>
    rw [splitOnNl]
    by_cases hc : c = '\n'
    · simp [hc]
    · rw [if_neg hc]
      match h : splitOnNl cs with
      | [] => simp
      | l :: ls => simp

theorem splitOnNl_no_nl {l : List Char} (h : '\n' ∉ l) : splitOnNl l = [l] := by
  induction l with
  | nil => rfl
  | cons c cs ih =>
    have hc : ¬ c = '\n' := fun hcc => h (hcc ▸ List.mem_cons_self c cs)
    have hcs : '\n' ∉ cs := fun hm => h (List.mem_cons_of_mem c hm)
    rw [splitOnNl, if_neg hc, ih hcs]

theorem splitOnNl_append_nl {l : List Char} (rest : List Char) (h : '\n' ∉ l) :
    splitOnNl (l ++ '\n' :: rest) = l :: splitOnNl rest := by
  induction l with
  | nil => simp [splitOnNl]
  | cons c cs ih =>
    have hc : ¬ c = '\n' := fun hcc => h (hcc ▸ List.mem_cons_self c cs)
    have hcs : '\n' ∉ cs := fun hm => h (List.mem_cons_of_mem c hm)
    rw [List.cons_append, splitOnNl, if_neg hc, ih hcs]

theorem splitOnNl_length (s : List Char) :
    (splitOnNl s).length = s.count '\n' + 1 := by
  induction s with
  | nil => rfl
  | cons c cs ih =>
    rw [splitOnNl]
    by_cases hc : c = '\n'
    · subst hc
      simp [ih]
    · rw [if_neg hc]
      have hcount : (c :: cs).count '\n' = cs.count '\n' :=
        List.count_cons_of_ne (fun h2 => hc h2.symm) cs
      match h : splitOnNl cs with
      | [] => exact absurd h (splitOnNl_ne_nil cs)
      | l :: ls =>
        rw [hcount, ← ih, h]
        rfl

theorem splitOnNl_concat_nl (s : List Char) :
    splitOnNl (s ++ ['\n']) = splitOnNl s ++ [[]] := by
  induction s with
  | nil => rfl
  | cons c cs ih =>
    rw [List.cons_append, splitOnNl, splitOnNl]
    by_cases hc : c = '\n'
    · rw [if_pos hc, if_pos hc, ih]
      rfl
    · rw [if_neg hc, if_neg hc, ih]
      match h : splitOnNl cs with
      | [] => exact absurd h (splitOnNl_ne_nil cs)
      | l :: ls => rfl

/-- Claim C9: the PDF Exporter splits the summary on newline characters
and renders each resulting line as one document cell in order — a
summary made of three newline-separated lines yields exactly the three
cells — and a summary containing a character outside latin-1 makes the
export fail instead of producing a document. -/
theorem c9_export (summary : List Char) :
    (∀ l1 l2 l3 : List Char, '\n' ∉ l1 → '\n' ∉ l2 → '\n' ∉ l3 →
      summary = l1 ++ '\n' :: (l2 ++ '\n' :: l3) →
      splitOnNl summary = [l1, l2, l3]
      ∧ (summary.all isLatin1 = true → create_pdf summary = some [l1, l2, l3]))
    ∧ (summary.all isLatin1 ≠ true → create_pdf summary = none) := by
  constructor
  · intro l1 l2 l3 h1 h2 h3 hsum
    have hsplit : splitOnNl summary = [l1, l2, l3] := by
      rw [hsum, splitOnNl_append_nl _ h1, splitOnNl_append_nl _ h2, splitOnNl_no_nl h3]
    refine ⟨hsplit, ?_⟩
    intro hlat
    rw [create_pdf]
    simp only [hlat, if_true, hsplit]
  · intro h
    rw [create_pdf]
    simp only [if_neg h]

/-- Witness for C9: the three-line summary "a\nb\nc" renders as the three
cells "a", "b", "c", and a summary containing the euro sign (outside
latin-1) makes the export fail. -/
theorem c9_export_witness :
    splitOnNl ("a\nb\nc".toList) = [['a'], ['b'], ['c']]
    ∧ create_pdf ['€'] = none :=
  ⟨((c9_export ("a\nb\nc".toList)).1 ['a'] ['b'] ['c']
      (by decide) (by decide) (by decide) (by decide)).1,
   (c9_export ['€']).2 (by decide)⟩

/-- Claim C10: for every latin-1 summary, `create_pdf` renders exactly
one cell more than the summary has newline characters: the empty summary
produces the single empty cell, a summary ending in a newline produces a
trailing empty cell, and the export never produces zero cells. -/
theorem c10_cell_count (summary : List Char) :
    (splitOnNl summary).length = summary.count '\n' + 1
    ∧ splitOnNl summary ≠ []
    ∧ splitOnNl ([] : List Char) = [[]]
    ∧ (splitOnNl (summary ++ ['\n'])).getLast? = some []
    ∧ (summary.all isLatin1 = true → create_pdf summary = some (splitOnNl summary)) := by
  refine ⟨splitOnNl_length summary, splitOnNl_ne_nil summary, rfl, ?_, ?_⟩
  · rw [splitOnNl_concat_nl]
    exact List.getLast?_concat _
  · intro h
    rw [create_pdf]
    simp only [h, if_true]

/-- Witness for C10: a latin-1 summary ending in a newline exports to the
cell list split on newlines (here two cells, the last one empty). -/
theorem c10_cell_count_witness :
    create_pdf ("ab\n".toList) = some (splitOnNl ("ab\n".toList)) :=
  (c10_cell_count ("ab\n".toList)).2.2.2.2 (by decide)

end Practical
